import Mathlib

/-!
# DuckX: the generic index lookup over sequence cursors

A verification development for `include/duckx.hpp`.

The header defines one function template, `get_by_index`, and declares the
cursor classes `Run`, `Paragraph`, `TableCell`, `TableRow`, `Table` and
`Document`.  The template is embedded below over an explicit program state:
C++ references become values of a reference type `ρ`, the objects they point to
live in a state `σ`, and a member function that mutates its object maps a state
to a new state.
-/

namespace duckx

/-! ## The capability `get_by_index` is written against -/

/-- The two members the template `get_by_index<T>` uses of `T`:
`bool has_next() const` reads the state, `T& next()` may change the state and
returns a reference. -/
structure SequenceCursor (σ ρ : Type) where
  has_next : σ → ρ → Bool
  next : σ → ρ → σ × ρ

/-- The function template of `duckx.hpp`, lines 25-35:

    if(index == 0) return obj;
    if(obj.has_next()) return get_by_index(obj.next(), index - 1);
    return std::nullopt;

The result pairs the state the call leaves behind with the
`std::optional<std::reference_wrapper<T>>` it returns.  `index` is a `size_t`; the
only arithmetic on it is `index - 1` on a nonzero index, which cannot wrap, so it
is a natural number here. -/
def get_by_index {σ ρ : Type} (T : SequenceCursor σ ρ) : σ → ρ → Nat → σ × Option ρ
  | s, obj, 0 => (s, some obj)
  | s, obj, index + 1 =>
    if T.has_next s obj then
      get_by_index T (T.next s obj).1 (T.next s obj).2 index
    else
      (s, none)

/-- What one call of `get_by_index` does, in order. -/
inductive Event where
  | has_next (result : Bool)
  | next
  | recurse (index : Nat)
  deriving DecidableEq, Repr

/-- The same control flow as `get_by_index`, recording each `has_next()` with its
result, each `next()` and each recursive call with the index it is given. -/
def get_by_index_trace {σ ρ : Type} (T : SequenceCursor σ ρ) : σ → ρ → Nat → List Event
  | _, _, 0 => []
  | s, obj, index + 1 =>
    if T.has_next s obj then
      Event.has_next true :: Event.next :: Event.recurse index ::
        get_by_index_trace T (T.next s obj).1 (T.next s obj).2 index
    else
      [Event.has_next false]

/-- The indices handed to the recursive calls, in call order. -/
def recursive_calls : List Event → List Nat
  | [] => []
  | Event.recurse i :: rest => i :: recursive_calls rest
  | _ :: rest => recursive_calls rest

/-- How many times `next()` was called. -/
def next_calls (tr : List Event) : Nat := tr.count Event.next

/-- Every `next()` comes directly after a `has_next()` that returned true. -/
def guarded : List Event → Bool
  | [] => true
  | Event.has_next true :: Event.next :: rest => guarded rest
  | Event.next :: _ => false
  | _ :: rest => guarded rest

/-- `next()` applied `k` times, starting from the object `x.2` in state `x.1`. -/
def advance {σ ρ : Type} (T : SequenceCursor σ ρ) : Nat → σ × ρ → σ × ρ
  | 0, x => x
  | k + 1, x => advance T k (T.next x.1 x.2)

/-- `has_next()` asked at the position reached after `i` advances. -/
def has_next_at {σ ρ : Type} (T : SequenceCursor σ ρ) (s : σ) (obj : ρ) (i : Nat) : Bool :=
  T.has_next (advance T i (s, obj)).1 (advance T i (s, obj)).2

/-- A chain of `N` elements headed by `obj`: there is a first element, `has_next()`
is true on each of the first `N - 1` positions and false on the last. -/
def IsChain {σ ρ : Type} (T : SequenceCursor σ ρ) (s : σ) (obj : ρ) (N : Nat) : Prop :=
  1 ≤ N ∧ (∀ i, i < N - 1 → has_next_at T s obj i = true) ∧ has_next_at T s obj (N - 1) = false

instance {σ ρ : Type} (T : SequenceCursor σ ρ) (s : σ) (obj : ρ) (N : Nat) :
    Decidable (IsChain T s obj N) := by
  unfold IsChain
  infer_instance

/-! ## A small cursor to evaluate on: positions `0 .. len - 1` of a chain -/

/-- A cursor object over a chain of `len` elements, standing at `pos`. -/
structure Walker where
  len : Nat
  pos : Nat
  deriving DecidableEq, Repr

/-- One `Walker` object referred to by `()`: `has_next()` is true while a later
position exists, `next()` moves the object one position on and returns it. -/
def walker : SequenceCursor Walker Unit where
  has_next w _ := decide (w.pos + 1 < w.len)
  next w r := ({ w with pos := w.pos + 1 }, r)

/-- A cursor whose `has_next()` is always true. -/
def endless : SequenceCursor Nat Unit where
  has_next _ _ := true
  next n r := (n + 1, r)

/-! ## The document tree the cursors point into -/

/-- Markup tags the cursors look for among siblings. -/
inductive Tag where
  | body | p | r | rPr | t | tbl | tr | tc | other
  deriving DecidableEq, Repr

/-- Modelled from the spec: `pugi::xml_node` (pugixml.hpp is not among the sources), a
handle that is either null, the "none" sentinel, or names a node of the tree. -/
abbrev xml_node := Option Nat

/-- Modelled from the spec: the labeled tree behind `pugi::xml_document`.  Nodes are
numbered `0 .. size - 1`; each has a tag, a first child and a next sibling, and the
text and formatting flags a run stores. -/
structure xml_tree where
  size : Nat
  name : Nat → Tag
  first_child : Nat → xml_node
  next_sibling : Nat → xml_node
  text : Nat → String
  format : Nat → Nat

/-- Modelled from the spec: pugixml's `next_sibling(name)`, the first sibling after
`cur` that carries `tag`; null when `cur` is null or no such sibling exists.  The walk
follows at most `fuel` sibling links. -/
def xml_tree.next_sibling_named (t : xml_tree) (tag : Tag) : Nat → xml_node → xml_node
  | 0, _ => none
  | _ + 1, none => none
  | fuel + 1, some c =>
    match t.next_sibling c with
    | none => none
    | some m => if t.name m = tag then some m else xml_tree.next_sibling_named t tag fuel (some m)

/-- Modelled from the spec: a brand-new node with the given tag and no links yet. -/
def xml_tree.alloc (t : xml_tree) (tag : Tag) : xml_tree × Nat :=
  ({ t with
      size := t.size + 1
      name := Function.update t.name t.size tag
      first_child := Function.update t.first_child t.size none
      next_sibling := Function.update t.next_sibling t.size none },
    t.size)

/-- Modelled from the spec: pugixml's `insert_child_after(name, node)`, a new node
linked in as the sibling immediately following `after`. -/
def xml_tree.insert_child_after (t : xml_tree) (tag : Tag) (after : Nat) : xml_tree × Nat :=
  let a := t.alloc tag
  ({ a.1 with
      next_sibling :=
        Function.update (Function.update a.1.next_sibling a.2 (t.next_sibling after))
          after (some a.2) },
    a.2)

/-- Modelled from the spec: the last node of the sibling list that `n` is in, where
`append_child` links a new node; the walk follows at most `fuel` links. -/
def xml_tree.last_sibling (t : xml_tree) : Nat → Nat → Nat
  | 0, n => n
  | fuel + 1, n =>
    match t.next_sibling n with
    | none => n
    | some m => xml_tree.last_sibling t fuel m

/-- Modelled from the spec: pugixml's `append_child(name)`, a new node linked in as
the last child of `parent`. -/
def xml_tree.append_child (t : xml_tree) (parent : Nat) (tag : Tag) : xml_tree × Nat :=
  let a := t.alloc tag
  match t.first_child parent with
  | none => ({ a.1 with first_child := Function.update a.1.first_child parent (some a.2) }, a.2)
  | some c =>
    ({ a.1 with
        next_sibling := Function.update a.1.next_sibling (t.last_sibling t.size c) (some a.2) },
      a.2)

/-! ## The cursor classes of `duckx.hpp` -/

/-- Class `Run`, lines 38-59: the parent node (a paragraph) and the current node. -/
structure Run where
  parent : xml_node
  current : xml_node
  deriving DecidableEq, Repr

/-- Class `Paragraph`, lines 63-88: parent, current, and the owned `Run` cursor. -/
structure Paragraph where
  parent : xml_node
  current : xml_node
  run : Run
  deriving DecidableEq, Repr

/-- Class `TableCell`, lines 91-111. -/
structure TableCell where
  parent : xml_node
  current : xml_node
  paragraph : Paragraph
  deriving DecidableEq, Repr

/-- Class `TableRow`, lines 114-132. -/
structure TableRow where
  parent : xml_node
  current : xml_node
  cell : TableCell
  deriving DecidableEq, Repr

/-- Class `Table`, lines 135-153. -/
structure Table where
  parent : xml_node
  current : xml_node
  row : TableRow
  deriving DecidableEq, Repr

/-- Modelled from the spec: `Run::has_next` (its body is in duckx.cpp, not among the
sources), true iff a next sibling with the run tag exists after `current`. -/
def Run.has_next (t : xml_tree) (e : Run) : Bool :=
  (t.next_sibling_named Tag.r t.size e.current).isSome

/-- Modelled from the spec: `Run::next`, advances `current` to that sibling. -/
def Run.next (t : xml_tree) (e : Run) : Run :=
  { e with current := t.next_sibling_named Tag.r t.size e.current }

/-- Modelled from the spec: `Paragraph::has_next`, as `Run`, for paragraph-tagged siblings. -/
def Paragraph.has_next (t : xml_tree) (e : Paragraph) : Bool :=
  (t.next_sibling_named Tag.p t.size e.current).isSome

/-- Modelled from the spec: `Paragraph::next`, as `Run`, for paragraph-tagged siblings. -/
def Paragraph.next (t : xml_tree) (e : Paragraph) : Paragraph :=
  { e with current := t.next_sibling_named Tag.p t.size e.current }

/-- Modelled from the spec: `TableCell::has_next`, walks cell-tagged siblings. -/
def TableCell.has_next (t : xml_tree) (e : TableCell) : Bool :=
  (t.next_sibling_named Tag.tc t.size e.current).isSome

/-- Modelled from the spec: `TableCell::next`, walks cell-tagged siblings. -/
def TableCell.next (t : xml_tree) (e : TableCell) : TableCell :=
  { e with current := t.next_sibling_named Tag.tc t.size e.current }

/-- Modelled from the spec: `TableRow::has_next`, walks row-tagged siblings. -/
def TableRow.has_next (t : xml_tree) (e : TableRow) : Bool :=
  (t.next_sibling_named Tag.tr t.size e.current).isSome

/-- Modelled from the spec: `TableRow::next`, walks row-tagged siblings. -/
def TableRow.next (t : xml_tree) (e : TableRow) : TableRow :=
  { e with current := t.next_sibling_named Tag.tr t.size e.current }

/-- Modelled from the spec: `Table::has_next`, walks table-tagged siblings. -/
def Table.has_next (t : xml_tree) (e : Table) : Bool :=
  (t.next_sibling_named Tag.tbl t.size e.current).isSome

/-- Modelled from the spec: `Table::next`, walks table-tagged siblings. -/
def Table.next (t : xml_tree) (e : Table) : Table :=
  { e with current := t.next_sibling_named Tag.tbl t.size e.current }

/-- Modelled from the spec: what the five entity classes have in common (sections 3
and 4.2 to 4.4): a `current` node, `has_next()` and `next()` over a tree, and the
invariant that `has_next()` is false in the terminal state `current == none`. -/
class Entity (E : Type) where
  current : E → xml_node
  has_next : xml_tree → E → Bool
  next : xml_tree → E → E
  has_next_terminal : ∀ t e, current e = none → has_next t e = false

instance : Entity Run where
  current := Run.current
  has_next := Run.has_next
  next := Run.next
  has_next_terminal := by
    intro t e h
    cases hs : t.size <;> simp [Run.has_next, h, hs, xml_tree.next_sibling_named]

instance : Entity Paragraph where
  current := Paragraph.current
  has_next := Paragraph.has_next
  next := Paragraph.next
  has_next_terminal := by
    intro t e h
    cases hs : t.size <;> simp [Paragraph.has_next, h, hs, xml_tree.next_sibling_named]

instance : Entity TableCell where
  current := TableCell.current
  has_next := TableCell.has_next
  next := TableCell.next
  has_next_terminal := by
    intro t e h
    cases hs : t.size <;> simp [TableCell.has_next, h, hs, xml_tree.next_sibling_named]

instance : Entity TableRow where
  current := TableRow.current
  has_next := TableRow.has_next
  next := TableRow.next
  has_next_terminal := by
    intro t e h
    cases hs : t.size <;> simp [TableRow.has_next, h, hs, xml_tree.next_sibling_named]

instance : Entity Table where
  current := Table.current
  has_next := Table.has_next
  next := Table.next
  has_next_terminal := by
    intro t e h
    cases hs : t.size <;> simp [Table.has_next, h, hs, xml_tree.next_sibling_named]

/-- Modelled from the spec: cursor objects of class `E` stored at addresses, over the
tree `t`.  A reference is an address, `has_next()` reads the object, and `next()`
updates the object in place and returns a reference to itself (`T& next()`). -/
def cursor (E : Type) [Entity E] (t : xml_tree) : SequenceCursor (Nat → E) Nat where
  has_next heap a := Entity.has_next t (heap a)
  next heap a := (Function.update heap a (Entity.next t (heap a)), a)

/-- Modelled from the spec: `Paragraph::add_run(text, flags)`, a new run node as the
last child of `current`, with the flags on its run-properties and `text` as its text;
the owned `Run` cursor then points at it.  `formatting_flag` (constants.hpp) is a
set of bits, `0` being `duckx::none`. -/
def Paragraph.add_run (t : xml_tree) (e : Paragraph) (text : String) (f : Nat) :
    xml_tree × Paragraph :=
  match e.current with
  | none => (t, e)
  | some c =>
    let r := t.append_child c Tag.r
    let pr := r.1.append_child r.2 Tag.rPr
    let t3 : xml_tree := { pr.1 with format := Function.update pr.1.format pr.2 f }
    let tx := t3.append_child r.2 Tag.t
    ({ tx.1 with text := Function.update tx.1.text tx.2 text },
      { e with run := { parent := some c, current := some r.2 } })

/-- Modelled from the spec: `Paragraph::insert_paragraph_after(text, flags)`, a
brand-new paragraph node as the sibling immediately following `current`, given one
run with `text` and `flags`; the result is a `Paragraph` cursor on the new node. -/
def Paragraph.insert_paragraph_after (t : xml_tree) (e : Paragraph) (text : String) (f : Nat) :
    xml_tree × Paragraph :=
  match e.current with
  | none => (t, { e with current := none })
  | some c =>
    let n := t.insert_child_after Tag.p c
    Paragraph.add_run n.1
      { parent := e.parent, current := some n.2, run := { parent := none, current := none } }
      text f

/-- A body (node 0) holding two paragraphs (nodes 1 and 2) and a table (node 3). -/
def sample_tree : xml_tree where
  size := 4
  name n := if n = 0 then Tag.body else if n = 3 then Tag.tbl else Tag.p
  first_child n := if n = 0 then some 1 else none
  next_sibling n := if n = 1 then some 2 else if n = 2 then some 3 else none
  text _ := ""
  format _ := 0

/-- A `Paragraph` cursor on node `n` of the body. -/
def paragraph_at (n : xml_node) : Paragraph :=
  { parent := some 0, current := n, run := { parent := none, current := none } }

/-! ## The public members each class declares -/

/-- The cursor classes of the header. -/
inductive EntityClass where
  | Run | Paragraph | TableCell | TableRow | Table
  deriving DecidableEq, Repr

/-- Names of the public member functions declared in `duckx.hpp`. -/
inductive Member where
  | set_parent | set_current | get_text | set_text | next | has_next
  | runs | add_run | insert_paragraph_after | paragraphs | cells | rows
  | get_run_by_index | get_paragraph_by_index | get_table_cell_by_index
  | get_table_row_by_index
  deriving DecidableEq, Repr

/-- The public member functions of each class, in declaration order (constructors
left out): lines 49-58, 76-87, 103-110, 124-131 and 146-152. -/
def public_members : EntityClass → List Member
  | .Run => [.set_parent, .set_current, .get_text, .set_text, .set_text, .next, .has_next,
      .get_run_by_index]
  | .Paragraph => [.set_parent, .set_current, .next, .has_next, .runs, .add_run, .add_run,
      .insert_paragraph_after, .get_paragraph_by_index]
  | .TableCell => [.set_parent, .set_current, .paragraphs, .next, .has_next,
      .get_table_cell_by_index]
  | .TableRow => [.set_parent, .set_current, .cells, .has_next, .next, .get_table_row_by_index]
  | .Table => [.set_parent, .set_current, .next, .has_next, .rows]

/-- The members returning `std::optional<std::reference_wrapper<...>>` for a `size_t index`. -/
def Member.is_get_by_index : Member → Bool
  | .get_run_by_index | .get_paragraph_by_index | .get_table_cell_by_index
  | .get_table_row_by_index => true
  | _ => false

/-- The free template `get_by_index<T>` (lines 25-35) instantiates for a class exactly
when the class has public `has_next()` and `next()`: those are the only members it uses. -/
def template_applies (c : EntityClass) : Bool :=
  decide (Member.has_next ∈ public_members c) && decide (Member.next ∈ public_members c)

/-- Modelled from the spec: `Run::get_run_by_index(index)`, declared on line 58 with its
body in duckx.cpp; it delegates to the generic algorithm over this `Run` chain. -/
def Run.get_run_by_index (t : xml_tree) (heap : Nat → Run) (self : Nat) (index : Nat) :
    (Nat → Run) × Option Nat :=
  get_by_index (cursor Run t) heap self index

/-- Modelled from the spec: `Paragraph::get_paragraph_by_index(index)`, declared on line
87 with its body in duckx.cpp; it delegates to the generic algorithm. -/
def Paragraph.get_paragraph_by_index (t : xml_tree) (heap : Nat → Paragraph) (self : Nat)
    (index : Nat) : (Nat → Paragraph) × Option Nat :=
  get_by_index (cursor Paragraph t) heap self index

/-- Modelled from the spec: `TableCell::get_table_cell_by_index(index)`, declared on line
110 with its body in duckx.cpp; it delegates to the generic algorithm. -/
def TableCell.get_table_cell_by_index (t : xml_tree) (heap : Nat → TableCell) (self : Nat)
    (index : Nat) : (Nat → TableCell) × Option Nat :=
  get_by_index (cursor TableCell t) heap self index

/-- Modelled from the spec: `TableRow::get_table_row_by_index(index)`, declared on line
131 with its body in duckx.cpp; it delegates to the generic algorithm. -/
def TableRow.get_table_row_by_index (t : xml_tree) (heap : Nat → TableRow) (self : Nat)
    (index : Nat) : (Nat → TableRow) × Option Nat :=
  get_by_index (cursor TableRow t) heap self index

/-! ## Lemmas on the lookup -/

theorem advance_add {σ ρ : Type} (T : SequenceCursor σ ρ) (j k : Nat) (x : σ × ρ) :
    advance T (j + k) x = advance T k (advance T j x) := by
  induction j generalizing x with
  | zero => simp [advance]
  | succ j ih =>
    have h : j + 1 + k = (j + k) + 1 := by omega
    rw [h]
    exact ih (T.next x.1 x.2)

/-- While `has_next()` holds on the first `k` positions the lookup walks `k` steps. -/
theorem get_by_index_of_has_next {σ ρ : Type} (T : SequenceCursor σ ρ) (k : Nat) (s : σ) (obj : ρ)
    (h : ∀ i, i < k → has_next_at T s obj i = true) :
    get_by_index T s obj k = ((advance T k (s, obj)).1, some (advance T k (s, obj)).2) := by
  induction k generalizing s obj with
  | zero => rfl
  | succ k ih =>
    have h0 : T.has_next s obj = true := h 0 (Nat.succ_pos k)
    have hk : ∀ i, i < k → has_next_at T (T.next s obj).1 (T.next s obj).2 i = true := by
      intro i hi
      exact h (i + 1) (Nat.succ_lt_succ hi)
    simp only [get_by_index, h0, if_true]
    exact ih _ _ hk

/-- When `has_next()` first fails at position `m`, every larger index misses and
the state is the one reached after `m` advances. -/
theorem get_by_index_of_exhausted {σ ρ : Type} (T : SequenceCursor σ ρ) (m : Nat) (s : σ) (obj : ρ)
    (k : Nat) (h : ∀ i, i < m → has_next_at T s obj i = true)
    (hm : has_next_at T s obj m = false) (hk : m < k) :
    get_by_index T s obj k = ((advance T m (s, obj)).1, none) := by
  induction m generalizing s obj k with
  | zero =>
    obtain ⟨k, rfl⟩ : ∃ j, k = j + 1 := ⟨k - 1, by omega⟩
    have h0 : T.has_next s obj = false := hm
    simp [get_by_index, h0, advance]
  | succ m ih =>
    obtain ⟨k, rfl⟩ : ∃ j, k = j + 1 := ⟨k - 1, by omega⟩
    have h0 : T.has_next s obj = true := h 0 (Nat.succ_pos m)
    simp only [get_by_index, h0, if_true]
    exact ih (T.next s obj).1 (T.next s obj).2 k
      (fun i hi => h (i + 1) (Nat.succ_lt_succ hi)) hm (by omega)

/-! ## Claims on the generic lookup -/

/-- C1: index 0 returns a found result that is `obj` itself, whatever `has_next()`
reports: the state is unchanged and neither `has_next()` nor `next()` is called. -/
theorem get_by_index_zero {σ ρ : Type} (T : SequenceCursor σ ρ) (s : σ) (obj : ρ) :
    get_by_index T s obj 0 = (s, some obj) ∧ get_by_index_trace T s obj 0 = [] :=
  ⟨rfl, rfl⟩

/-- C2: on a chain of `N ≥ 1` elements and for `k < N`, the lookup is found and is
the reference (and state) obtained by applying `next()` exactly `k` times to the head. -/
theorem get_by_index_eq_advance {σ ρ : Type} (T : SequenceCursor σ ρ) (s : σ) (obj : ρ)
    (N k : Nat) (hN : IsChain T s obj N) (hk : k < N) :
    get_by_index T s obj k = ((advance T k (s, obj)).1, some (advance T k (s, obj)).2) :=
  get_by_index_of_has_next T k s obj (fun i hi => hN.2.1 i (by omega))

theorem get_by_index_eq_advance_witness :
    IsChain walker ⟨3, 0⟩ () 3 ∧ 2 < 3 ∧
      get_by_index walker ⟨3, 0⟩ () 2 = (⟨3, 2⟩, some ()) := by
  refine ⟨by decide, by decide, ?_⟩
  exact get_by_index_eq_advance walker ⟨3, 0⟩ () 3 2 (by decide) (by decide)

/-- C3: on a chain of `N ≥ 1` elements and for `k ≥ N`, the lookup returns the empty
result; the function is total, so it returns and there is no other outcome. -/
theorem get_by_index_miss {σ ρ : Type} (T : SequenceCursor σ ρ) (s : σ) (obj : ρ)
    (N k : Nat) (hN : IsChain T s obj N) (hk : N ≤ k) :
    (get_by_index T s obj k).2 = none := by
  have h := get_by_index_of_exhausted T (N - 1) s obj k hN.2.1 hN.2.2 (by have := hN.1; omega)
  rw [h]

theorem get_by_index_miss_witness :
    IsChain walker ⟨3, 0⟩ () 3 ∧ 3 ≤ 5 ∧ (get_by_index walker ⟨3, 0⟩ () 5).2 = none :=
  ⟨by decide, by decide, get_by_index_miss walker ⟨3, 0⟩ () 3 5 (by decide) (by decide)⟩

/-- C4: on a chain of `N ≥ 1` elements, index `N - 1` is found, is the head advanced
`N - 1` times, and `has_next()` is false on the returned cursor. -/
theorem get_by_index_last {σ ρ : Type} (T : SequenceCursor σ ρ) (s : σ) (obj : ρ)
    (N : Nat) (hN : IsChain T s obj N) :
    ∃ s' r, get_by_index T s obj (N - 1) = (s', some r) ∧
      (s', r) = advance T (N - 1) (s, obj) ∧ T.has_next s' r = false := by
  refine ⟨(advance T (N - 1) (s, obj)).1, (advance T (N - 1) (s, obj)).2, ?_, rfl, hN.2.2⟩
  exact get_by_index_of_has_next T (N - 1) s obj hN.2.1

theorem get_by_index_last_witness :
    IsChain walker ⟨3, 0⟩ () 3 ∧
      ∃ s' r, get_by_index walker ⟨3, 0⟩ () (3 - 1) = (s', some r) ∧
        (s', r) = advance walker (3 - 1) (⟨3, 0⟩, ()) ∧ walker.has_next s' r = false :=
  ⟨by decide, get_by_index_last walker ⟨3, 0⟩ () 3 (by decide)⟩

/-! ## Termination and cost -/

theorem advance_snd {σ ρ : Type} (T : SequenceCursor σ ρ) (hself : ∀ s r, (T.next s r).2 = r)
    (k : Nat) (s : σ) (obj : ρ) : (advance T k (s, obj)).2 = obj := by
  induction k generalizing s with
  | zero => rfl
  | succ k ih =>
    have h : T.next s obj = ((T.next s obj).1, obj) := Prod.ext rfl (hself s obj)
    show (advance T k (T.next s obj)).2 = obj
    rw [h]
    exact ih _

theorem has_next_at_advance {σ ρ : Type} (T : SequenceCursor σ ρ) (s : σ) (obj : ρ) (j i : Nat) :
    has_next_at T (advance T j (s, obj)).1 (advance T j (s, obj)).2 i = has_next_at T s obj (j + i) := by
  unfold has_next_at
  rw [advance_add]

theorem range_succ_reverse_take (k d : Nat) :
    ((List.range (k + 1)).reverse).take (d + 1) = k :: ((List.range k).reverse).take d := by
  rw [List.range_succ, List.reverse_append]
  rfl

/-- C8: `get_by_index` is total (structural recursion on the index), so it returns
for every cursor and every index, also when `has_next()` never becomes false.  Its
recursive calls receive the indices `k - 1, k - 2, ...`, one less each time and never
below 0; `next()` is called once for each recursive call and only directly after a
`has_next()` that returned true; there are at most `k` recursive calls, and exactly
`k` exactly when the result is found.  The state returned is the one reached by
that many advances. -/
theorem get_by_index_cost {σ ρ : Type} (T : SequenceCursor σ ρ) (s : σ) (obj : ρ) (k : Nat) :
    recursive_calls (get_by_index_trace T s obj k)
        = ((List.range k).reverse).take (next_calls (get_by_index_trace T s obj k)) ∧
      (recursive_calls (get_by_index_trace T s obj k)).length
        = next_calls (get_by_index_trace T s obj k) ∧
      next_calls (get_by_index_trace T s obj k) ≤ k ∧
      guarded (get_by_index_trace T s obj k) = true ∧
      ((get_by_index T s obj k).2.isSome = true ↔ next_calls (get_by_index_trace T s obj k) = k) ∧
      (get_by_index T s obj k).1
        = (advance T (next_calls (get_by_index_trace T s obj k)) (s, obj)).1 ∧
      ((∀ s' r, T.has_next s' r = true) →
        (get_by_index T s obj k).2.isSome = true ∧
          next_calls (get_by_index_trace T s obj k) = k) := by
  induction k generalizing s obj with
  | zero =>
    simp [get_by_index, get_by_index_trace, recursive_calls, next_calls, guarded, advance]
  | succ k ih =>
    by_cases h0 : T.has_next s obj = true
    · obtain ⟨h1, h2, h3, h4, h5, h6, h7⟩ := ih (T.next s obj).1 (T.next s obj).2
      have hc : next_calls (get_by_index_trace T s obj (k + 1))
          = next_calls (get_by_index_trace T (T.next s obj).1 (T.next s obj).2 k) + 1 := by
        simp [get_by_index_trace, h0, next_calls]
      have hr : recursive_calls (get_by_index_trace T s obj (k + 1))
          = k :: recursive_calls (get_by_index_trace T (T.next s obj).1 (T.next s obj).2 k) := by
        simp [get_by_index_trace, h0, recursive_calls]
      have hg : guarded (get_by_index_trace T s obj (k + 1))
          = guarded (get_by_index_trace T (T.next s obj).1 (T.next s obj).2 k) := by
        simp [get_by_index_trace, h0, guarded]
      have hv : get_by_index T s obj (k + 1)
          = get_by_index T (T.next s obj).1 (T.next s obj).2 k := by
        simp [get_by_index, h0]
      rw [hc, hr, hg, hv, range_succ_reverse_take]
      refine ⟨by rw [h1], by simp [h2], by omega, h4, ?_, ?_, ?_⟩
      · rw [h5]; omega
      · rw [h6]; rfl
      · intro hall
        exact ⟨(h7 hall).1, by rw [(h7 hall).2]⟩
    · have h0f : T.has_next s obj = false := by simpa using h0
      have ht : get_by_index_trace T s obj (k + 1) = [Event.has_next false] := by
        simp [get_by_index_trace, h0f]
      have hv : get_by_index T s obj (k + 1) = (s, none) := by
        simp [get_by_index, h0f]
      rw [ht, hv]
      refine ⟨by simp [recursive_calls, next_calls], by simp [recursive_calls, next_calls],
        by simp [next_calls], by simp [guarded], by simp [next_calls], by simp [next_calls, advance],
        ?_⟩
      intro hall
      rw [hall s obj] at h0f
      exact absurd h0f (by decide)

theorem get_by_index_cost_witness :
    get_by_index endless 0 () 5 = (5, some ()) ∧
      next_calls (get_by_index_trace endless 0 () 5) = 5 ∧
      recursive_calls (get_by_index_trace endless 0 () 5) = [4, 3, 2, 1, 0] ∧
      recursive_calls (get_by_index_trace walker ⟨3, 0⟩ () 5) = [4, 3] :=
  ⟨rfl, ((get_by_index_cost endless 0 () 5).2.2.2.2.2.2 (fun _ _ => rfl)).2, by decide, by decide⟩

/-! ## Effect on the cursor -/

/-- C9: when `next()` returns a reference to the cursor it was called on, a lookup
on a chain of `N ≥ 1` elements leaves the program in the state reached by
`min k (N - 1)` advances of `obj`: on a miss (`k ≥ N`) that is the last element, on
which `has_next()` is false, and a found result is the reference `obj` itself. -/
theorem get_by_index_leaves_cursor_advanced {σ ρ : Type} (T : SequenceCursor σ ρ)
    (s : σ) (obj : ρ) (N k : Nat) (hself : ∀ s' r, (T.next s' r).2 = r)
    (hN : IsChain T s obj N) :
    get_by_index T s obj k
        = ((advance T (min k (N - 1)) (s, obj)).1, if k < N then some obj else none) ∧
      (advance T (min k (N - 1)) (s, obj)).2 = obj ∧
      (N ≤ k → T.has_next (get_by_index T s obj k).1 obj = false) := by
  have h1 := hN.1
  refine ⟨?_, advance_snd T hself _ s obj, ?_⟩
  · by_cases hk : k < N
    · rw [get_by_index_of_has_next T k s obj (fun i hi => hN.2.1 i (by omega)),
        advance_snd T hself, if_pos hk, Nat.min_eq_left (by omega)]
    · rw [get_by_index_of_exhausted T (N - 1) s obj k hN.2.1 hN.2.2 (by omega),
        if_neg hk, Nat.min_eq_right (by omega)]
  · intro hk
    rw [get_by_index_of_exhausted T (N - 1) s obj k hN.2.1 hN.2.2 (by omega)]
    have h := hN.2.2
    unfold has_next_at at h
    rw [advance_snd T hself] at h
    exact h

theorem get_by_index_leaves_cursor_advanced_witness :
    (∀ (s' : Nat → Paragraph) (r : Nat), ((cursor Paragraph sample_tree).next s' r).2 = r) ∧
      IsChain (cursor Paragraph sample_tree) (fun _ => paragraph_at (some 1)) 0 2 ∧
      (get_by_index (cursor Paragraph sample_tree) (fun _ => paragraph_at (some 1)) 0 5).2 = none ∧
      (get_by_index (cursor Paragraph sample_tree) (fun _ => paragraph_at (some 1)) 0 5).1 0
        = paragraph_at (some 2) ∧
      (get_by_index (cursor Paragraph sample_tree) (fun _ => paragraph_at (some 1)) 0 5).1 0
        ≠ paragraph_at (some 1) ∧
      get_by_index walker ⟨3, 0⟩ () 7 = (⟨3, 2⟩, none) ∧
      get_by_index walker ⟨3, 0⟩ () 1 = (⟨3, 1⟩, some ()) := by
  have h := get_by_index_leaves_cursor_advanced walker ⟨3, 0⟩ () 3 7 (fun _ _ => rfl) (by decide)
  have h' := get_by_index_leaves_cursor_advanced walker ⟨3, 0⟩ () 3 1 (fun _ _ => rfl) (by decide)
  have hp := get_by_index_leaves_cursor_advanced (cursor Paragraph sample_tree)
    (fun _ => paragraph_at (some 1)) 0 2 5 (fun _ _ => rfl) (by decide)
  refine ⟨fun _ _ => rfl, by decide, ?_, ?_, ?_, h.1, h'.1⟩
  · rw [hp.1]; rfl
  · rw [hp.1]; decide
  · rw [hp.1]; decide

/-- C10: when `next()` returns a reference to the cursor it was called on, two
lookups in a row on the same cursor of a chain of `N` elements add up: after
`get_by_index(obj, j)` with `j < N` (which returns `obj`), `get_by_index(obj, k)` is
what `get_by_index(obj, j + k)` is on the untouched head when `j + k < N`, and is
empty when `j + k ≥ N`. -/
theorem get_by_index_twice {σ ρ : Type} (T : SequenceCursor σ ρ) (s : σ) (obj : ρ)
    (N j k : Nat) (hself : ∀ s' r, (T.next s' r).2 = r) (hN : IsChain T s obj N) (hj : j < N) :
    (get_by_index T s obj j).2 = some obj ∧
      (j + k < N →
        get_by_index T (get_by_index T s obj j).1 obj k = get_by_index T s obj (j + k)) ∧
      (N ≤ j + k → (get_by_index T (get_by_index T s obj j).1 obj k).2 = none) := by
  have hfst : get_by_index T s obj j = ((advance T j (s, obj)).1, some obj) := by
    rw [get_by_index_of_has_next T j s obj (fun i hi => hN.2.1 i (by omega)), advance_snd T hself]
  have hat : ∀ i, has_next_at T (advance T j (s, obj)).1 obj i = has_next_at T s obj (j + i) := by
    intro i
    have h := has_next_at_advance T s obj j i
    rw [advance_snd T hself] at h
    exact h
  have hpair : ((advance T j (s, obj)).1, obj) = advance T j (s, obj) :=
    Prod.ext rfl (advance_snd T hself j s obj).symm
  rw [hfst]
  refine ⟨rfl, ?_, ?_⟩
  · intro hjk
    rw [get_by_index_of_has_next T k _ obj (fun i hi => by rw [hat]; exact hN.2.1 _ (by omega)),
      get_by_index_of_has_next T (j + k) s obj (fun i hi => hN.2.1 i (by omega)),
      hpair, advance_add]
  · intro hjk
    rw [get_by_index_of_exhausted T (N - 1 - j) _ obj k
      (fun i hi => by rw [hat]; exact hN.2.1 _ (by omega))
      (by rw [hat]; have h := hN.2.2; rwa [show j + (N - 1 - j) = N - 1 by omega])
      (by omega)]

theorem get_by_index_twice_witness :
    (∀ (s' : Walker) (r : Unit), (walker.next s' r).2 = r) ∧ IsChain walker ⟨4, 0⟩ () 4 ∧ 1 < 4 ∧
      (get_by_index walker ⟨4, 0⟩ () 1).2 = some () ∧
      (1 + 2 < 4 →
        get_by_index walker (get_by_index walker ⟨4, 0⟩ () 1).1 () 2
          = get_by_index walker ⟨4, 0⟩ () (1 + 2)) ∧
      (4 ≤ 1 + 2 → (get_by_index walker (get_by_index walker ⟨4, 0⟩ () 1).1 () 2).2 = none) ∧
      2 < 4 ∧ 4 ≤ 2 + 2 ∧
      (get_by_index walker (get_by_index walker ⟨4, 0⟩ () 2).1 () 2).2 = none := by
  have h := get_by_index_twice walker ⟨4, 0⟩ () 4 1 2 (fun _ _ => rfl) (by decide) (by decide)
  have hmiss := get_by_index_twice walker ⟨4, 0⟩ () 4 2 2 (fun _ _ => rfl) (by decide) (by decide)
  exact ⟨fun _ _ => rfl, by decide, by decide, h.1, h.2.1, h.2.2, by decide, by decide,
    hmiss.2.2 (by decide)⟩

/-! ## Lookup on a cursor in the terminal state -/

/-- C7, as stated, fails at index 0: on a `Paragraph` cursor with `current == none`
the lookup returns a found result, and the cursor it refers to carries `none`. -/
theorem get_by_index_terminal_zero_is_found :
    (paragraph_at none).current = none ∧
      (get_by_index (cursor Paragraph sample_tree) (fun _ => paragraph_at none) 0 0).2 ≠ none ∧
      (get_by_index (cursor Paragraph sample_tree) (fun _ => paragraph_at none) 0 0).2 = some 0 ∧
      ((get_by_index (cursor Paragraph sample_tree) (fun _ => paragraph_at none) 0 0).1 0).current
        = none := by
  refine ⟨rfl, ?_, rfl, rfl⟩
  simp [get_by_index]

/-- C7, amended: for a cursor of any of the entity classes in the terminal state
(`current == none`), the lookup returns the empty result for every index `k ≥ 1` and
leaves every cursor as it was; at index 0 it returns a found result, the cursor itself. -/
theorem get_by_index_terminal (E : Type) [Entity E] (t : xml_tree) (heap : Nat → E) (a k : Nat)
    (h : Entity.current (heap a) = none) :
    (1 ≤ k → get_by_index (cursor E t) heap a k = (heap, none)) ∧
      get_by_index (cursor E t) heap a 0 = (heap, some a) := by
  refine ⟨?_, rfl⟩
  intro hk
  have hn : has_next_at (cursor E t) heap a 0 = false := Entity.has_next_terminal t (heap a) h
  exact get_by_index_of_exhausted (cursor E t) 0 heap a k (fun i hi => absurd hi (by omega)) hn hk

theorem get_by_index_terminal_witness :
    Entity.current ((fun _ => paragraph_at none : Nat → Paragraph) 0) = none ∧
      (1 ≤ 3 → get_by_index (cursor Paragraph sample_tree) (fun _ => paragraph_at none) 0 3
        = ((fun _ => paragraph_at none), none)) ∧
      get_by_index (cursor Paragraph sample_tree) (fun _ => paragraph_at none) 0 0
        = ((fun _ => paragraph_at none), some 0) :=
  ⟨rfl, get_by_index_terminal Paragraph sample_tree (fun _ => paragraph_at none) 0 3 rfl⟩

/-! ## Which classes offer a lookup of their own -/

/-- C6, as stated, fails at `Table`: it is not so that each of the five classes
declares a get-by-index member, since `class Table` (lines 135-153) declares none. -/
theorem Table_declares_no_get_by_index :
    (¬ ∀ c : EntityClass, ∃ m, m ∈ public_members c ∧ Member.is_get_by_index m = true) ∧
      (public_members EntityClass.Table).filter Member.is_get_by_index = [] := by
  refine ⟨?_, by decide⟩
  intro h
  obtain ⟨m, hm, hi⟩ := h EntityClass.Table
  revert hi
  revert hm
  revert m
  decide

/-- C6, amended: `Run`, `Paragraph`, `TableCell` and `TableRow` each declare exactly
one get-by-index member, and for every cursor of that class and every index its
result is the result of the generic `get_by_index` on that cursor.  `Table` declares
no such member; it has public `has_next()` and `next()`, as all five classes do, so a
lookup on a `Table` cursor is the generic `get_by_index` called on it directly. -/
theorem get_by_index_members :
    ((public_members EntityClass.Run).filter Member.is_get_by_index
        = [Member.get_run_by_index] ∧
      ∀ t heap self index,
        Run.get_run_by_index t heap self index = get_by_index (cursor Run t) heap self index) ∧
    ((public_members EntityClass.Paragraph).filter Member.is_get_by_index
        = [Member.get_paragraph_by_index] ∧
      ∀ t heap self index,
        Paragraph.get_paragraph_by_index t heap self index
          = get_by_index (cursor Paragraph t) heap self index) ∧
    ((public_members EntityClass.TableCell).filter Member.is_get_by_index
        = [Member.get_table_cell_by_index] ∧
      ∀ t heap self index,
        TableCell.get_table_cell_by_index t heap self index
          = get_by_index (cursor TableCell t) heap self index) ∧
    ((public_members EntityClass.TableRow).filter Member.is_get_by_index
        = [Member.get_table_row_by_index] ∧
      ∀ t heap self index,
        TableRow.get_table_row_by_index t heap self index
          = get_by_index (cursor TableRow t) heap self index) ∧
    (public_members EntityClass.Table).filter Member.is_get_by_index = [] ∧
    (∀ c : EntityClass, template_applies c = true) ∧
    (∀ (t : xml_tree) (heap : Nat → Table) (self : Nat),
      get_by_index (cursor Table t) heap self 0 = (heap, some self)) := by
  refine ⟨⟨by decide, fun _ _ _ _ => rfl⟩, ⟨by decide, fun _ _ _ _ => rfl⟩,
    ⟨by decide, fun _ _ _ _ => rfl⟩, ⟨by decide, fun _ _ _ _ => rfl⟩, by decide, ?_,
    fun _ _ _ => rfl⟩
  intro c
  cases c <;> decide

theorem get_by_index_members_witness :
    (Paragraph.get_paragraph_by_index sample_tree (fun _ => paragraph_at (some 1)) 0 1).2
        = some 0 ∧
      (Paragraph.get_paragraph_by_index sample_tree (fun _ => paragraph_at (some 1)) 0 1).1 0
        = paragraph_at (some 2) ∧
      (Paragraph.get_paragraph_by_index sample_tree (fun _ => paragraph_at (some 1)) 0 2).2
        = none ∧
      Paragraph.get_paragraph_by_index sample_tree (fun _ => paragraph_at (some 1)) 0 2
        = get_by_index (cursor Paragraph sample_tree) (fun _ => paragraph_at (some 1)) 0 2 :=
  ⟨by decide, by decide, by decide,
    get_by_index_members.2.1.2 sample_tree (fun _ => paragraph_at (some 1)) 0 2⟩

/-! ## Inserting a paragraph -/

theorem next_sibling_named_of_next (t : xml_tree) (tag : Tag) (fuel c m : Nat)
    (hf : 0 < fuel) (hc : t.next_sibling c = some m) (hm : t.name m = tag) :
    t.next_sibling_named tag fuel (some c) = some m := by
  obtain ⟨fuel, rfl⟩ : ∃ j, fuel = j + 1 := ⟨fuel - 1, by omega⟩
  simp [xml_tree.next_sibling_named, hc, hm]

theorem last_sibling_of_last (t : xml_tree) (fuel n : Nat) (h : t.next_sibling n = none) :
    t.last_sibling fuel n = n := by
  cases fuel <;> simp [xml_tree.last_sibling, h]

/-- C5: when paragraph `P` (node `p`) is immediately followed by paragraph `Q` (node
`q`), `P.insert_paragraph_after(text, flags)` returns a cursor on a brand-new
paragraph node `n` linked directly between them: in the new tree the sibling after
`p` is `n` and the sibling after `n` is `q`, `P.next()` reaches `n`, and `next()` on the
returned cursor reaches `q`. -/
theorem insert_paragraph_after_order (t : xml_tree) (P : Paragraph) (p q : Nat)
    (text : String) (flags : Nat)
    (hP : P.current = some p) (hpq : t.next_sibling p = some q)
    (_hp : t.name p = Tag.p) (hq : t.name q = Tag.p) (hps : p < t.size) (hqs : q < t.size) :
    ∃ n, (Paragraph.insert_paragraph_after t P text flags).2.current = some n ∧
      t.size ≤ n ∧
      (Paragraph.insert_paragraph_after t P text flags).1.name n = Tag.p ∧
      (Paragraph.insert_paragraph_after t P text flags).1.next_sibling p = some n ∧
      (Paragraph.insert_paragraph_after t P text flags).1.next_sibling n = some q ∧
      Paragraph.has_next (Paragraph.insert_paragraph_after t P text flags).1 P = true ∧
      (Paragraph.next (Paragraph.insert_paragraph_after t P text flags).1 P).current = some n ∧
      Paragraph.has_next (Paragraph.insert_paragraph_after t P text flags).1
        (Paragraph.insert_paragraph_after t P text flags).2 = true ∧
      (Paragraph.next (Paragraph.insert_paragraph_after t P text flags).1
        (Paragraph.insert_paragraph_after t P text flags).2).current = some q := by
  have e0 : p ≠ t.size := by omega
  have e1 : p ≠ t.size + 1 := by omega
  have e2 : p ≠ t.size + 1 + 1 := by omega
  have e3 : p ≠ t.size + 1 + 1 + 1 := by omega
  have f0 : t.size ≠ p := by omega
  have g0 : q ≠ t.size := by omega
  have g1 : q ≠ t.size + 1 := by omega
  have g2 : q ≠ t.size + 1 + 1 := by omega
  have g3 : q ≠ t.size + 1 + 1 + 1 := by omega
  have s1 : t.size ≠ t.size + 1 := by omega
  have s2 : t.size ≠ t.size + 1 + 1 := by omega
  have s3 : t.size ≠ t.size + 1 + 1 + 1 := by omega
  have hcur : (Paragraph.insert_paragraph_after t P text flags).2.current = some t.size := by
    simp [Paragraph.insert_paragraph_after, Paragraph.add_run, xml_tree.insert_child_after,
      xml_tree.alloc, hP]
  have hsize : 0 < (Paragraph.insert_paragraph_after t P text flags).1.size := by
    simp [Paragraph.insert_paragraph_after, Paragraph.add_run, xml_tree.insert_child_after,
      xml_tree.append_child, xml_tree.alloc, hP, Function.update_apply, last_sibling_of_last,
      e0, s1, s2, s3]
  have hname : (Paragraph.insert_paragraph_after t P text flags).1.name t.size = Tag.p := by
    simp [Paragraph.insert_paragraph_after, Paragraph.add_run, xml_tree.insert_child_after,
      xml_tree.append_child, xml_tree.alloc, hP, Function.update_apply, last_sibling_of_last,
      e0, s1, s2, s3]
  have hnameq : (Paragraph.insert_paragraph_after t P text flags).1.name q = Tag.p := by
    simp [Paragraph.insert_paragraph_after, Paragraph.add_run, xml_tree.insert_child_after,
      xml_tree.append_child, xml_tree.alloc, hP, Function.update_apply, last_sibling_of_last,
      e0, s1, s2, s3, g0, g1, g2, g3, hq]
  have hnextp : (Paragraph.insert_paragraph_after t P text flags).1.next_sibling p
      = some t.size := by
    simp [Paragraph.insert_paragraph_after, Paragraph.add_run, xml_tree.insert_child_after,
      xml_tree.append_child, xml_tree.alloc, hP, Function.update_apply, last_sibling_of_last,
      e0, e1, e2, e3, s1, s2, s3]
  have hnextn : (Paragraph.insert_paragraph_after t P text flags).1.next_sibling t.size
      = some q := by
    simp [Paragraph.insert_paragraph_after, Paragraph.add_run, xml_tree.insert_child_after,
      xml_tree.append_child, xml_tree.alloc, hP, Function.update_apply, last_sibling_of_last,
      e0, f0, s1, s2, s3, hpq]
  have hwalkp := next_sibling_named_of_next _ Tag.p _ p t.size hsize hnextp hname
  have hwalkn := next_sibling_named_of_next _ Tag.p _ t.size q hsize hnextn hnameq
  refine ⟨t.size, hcur, le_refl _, hname, hnextp, hnextn, ?_, ?_, ?_, ?_⟩
  · simp [Paragraph.has_next, hP, hwalkp]
  · simp [Paragraph.next, hP, hwalkp]
  · simp [Paragraph.has_next, hcur, hwalkn]
  · simp [Paragraph.next, hcur, hwalkn]

theorem insert_paragraph_after_order_witness :
    (paragraph_at (some 1)).current = some 1 ∧ sample_tree.next_sibling 1 = some 2 ∧
      sample_tree.name 1 = Tag.p ∧ sample_tree.name 2 = Tag.p ∧
      (Paragraph.insert_paragraph_after sample_tree (paragraph_at (some 1)) "y" 0).2.current
        = some 4 ∧
      ∃ n, (Paragraph.insert_paragraph_after sample_tree (paragraph_at (some 1)) "y" 0).2.current
          = some n ∧
        sample_tree.size ≤ n ∧
        (Paragraph.insert_paragraph_after sample_tree (paragraph_at (some 1)) "y" 0).1.name n
          = Tag.p ∧
        (Paragraph.insert_paragraph_after sample_tree (paragraph_at (some 1)) "y" 0).1.next_sibling 1
          = some n ∧
        (Paragraph.insert_paragraph_after sample_tree (paragraph_at (some 1)) "y" 0).1.next_sibling n
          = some 2 ∧
        Paragraph.has_next
          (Paragraph.insert_paragraph_after sample_tree (paragraph_at (some 1)) "y" 0).1
          (paragraph_at (some 1)) = true ∧
        (Paragraph.next
          (Paragraph.insert_paragraph_after sample_tree (paragraph_at (some 1)) "y" 0).1
          (paragraph_at (some 1))).current = some n ∧
        Paragraph.has_next
          (Paragraph.insert_paragraph_after sample_tree (paragraph_at (some 1)) "y" 0).1
          (Paragraph.insert_paragraph_after sample_tree (paragraph_at (some 1)) "y" 0).2 = true ∧
        (Paragraph.next
          (Paragraph.insert_paragraph_after sample_tree (paragraph_at (some 1)) "y" 0).1
          (Paragraph.insert_paragraph_after sample_tree (paragraph_at (some 1)) "y" 0).2).current
          = some 2 :=
  ⟨rfl, rfl, rfl, rfl, rfl,
    insert_paragraph_after_order sample_tree (paragraph_at (some 1)) 1 2 "y" 0 rfl rfl rfl rfl
      (by decide) (by decide)⟩

end duckx
